import Mathlib

/-!
Verification of the rustplus CLI registration and pairing flow.

The definitions below are a shallow embedding of the JavaScript sources:

* `AndroidFCM` (node_modules/@liamcottle/push-receiver/src/android/fcm.js):
  `installRequest`, `registerRequest` (with its bounded retry) and
  `generateFirebaseFID`.
* the CLI script (`linkSteamWithRustPlus`, `parseRustCredsString`,
  `readConfig`/`updateConfig`, `fcmRegister`).

Strings are processed as `List Char`; machine bytes are `Nat` with explicit
bounds.  Network and filesystem effects are modelled by passing the observed
responses / file contents explicitly.
-/

/-- `hasPrefixB pat l` is true iff `pat` is a prefix of `l` (executable). -/
def hasPrefixB : List Char → List Char → Bool
  | [], _ => true
  | _ :: _, [] => false
  | p :: ps, c :: cs => p = c && hasPrefixB ps cs

/-- `containsSub pat l` models JavaScript `String.prototype.includes`:
`pat` occurs contiguously somewhere inside `l`. -/
def containsSub (pat : List Char) : List Char → Bool
  | [] => hasPrefixB pat []
  | c :: cs => hasPrefixB pat (c :: cs) || containsSub pat cs

/-- `data.includes('Error')` from `AndroidFCM.registerRequest`. -/
def hasError (s : String) : Bool := containsSub "Error".toList s.toList

/-- `splitOnChar sep l` models JavaScript `String.prototype.split` with a
single-character separator: the (possibly empty) chunks between occurrences
of `sep`. -/
def splitOnChar (sep : Char) : List Char → List (List Char)
  | [] => [[]]
  | c :: cs =>
    match splitOnChar sep cs with
    | [] => [[c]]
    | g :: gs => if c = sep then [] :: g :: gs else (c :: g) :: gs

/-- `data.split("=")[1]` from `AndroidFCM.registerRequest`: the second
`=`-separated chunk of the response body, `none` when the body holds no `=`
(JavaScript `undefined`). -/
def tokenFromBody (s : String) : Option String :=
  match splitOnChar '=' s.toList with
  | _ :: seg :: _ => some (String.mk seg)
  | _ => none

/-- Trace of one `registerRequest` call: its outcome, how many HTTP requests
were posted, the `waitFor` delays (ms) performed between attempts, and the
`(androidId, securityToken, installationAuthToken)` triple sent with each
attempt. -/
structure RegTrace where
  result : Except String (Option String)
  attempts : Nat
  delays : List Nat
  creds : List (String × String × String)
deriving Repr

/-- `AndroidFCM.registerRequest`.  `responses k` is the body of the response
to the attempt made with retry counter `k`.  Mirrors the source: if the body
contains `Error` and `retry >= 5` it throws `GCM register has failed`;
if it contains `Error` and `retry < 5` it waits 1000 ms and recurses with
`retry + 1` and the same credentials; otherwise it returns
`data.split("=")[1]`. -/
def registerRequestGo (responses : Nat → String)
    (androidId securityToken installationAuthToken : String)
    (retry : Nat) : RegTrace :=
  let data := responses retry
  if hasError data = true then
    if h5 : 5 ≤ retry then
      { result := .error "GCM register has failed", attempts := 1,
        delays := [], creds := [(androidId, securityToken, installationAuthToken)] }
    else
      let rest := registerRequestGo responses androidId securityToken
        installationAuthToken (retry + 1)
      { result := rest.result, attempts := rest.attempts + 1,
        delays := 1000 :: rest.delays,
        creds := (androidId, securityToken, installationAuthToken) :: rest.creds }
  else
    { result := .ok (tokenFromBody data), attempts := 1,
      delays := [], creds := [(androidId, securityToken, installationAuthToken)] }
termination_by 6 - retry
decreasing_by omega

/-- `AndroidFCM.registerRequest` entered with the default `retry = 0`. -/
def registerRequest (responses : Nat → String)
    (androidId securityToken installationAuthToken : String) : RegTrace :=
  registerRequestGo responses androidId securityToken installationAuthToken 0

/-- Joins chunks back with the separator (inverse of `splitOnChar`). -/
def joinWith (sep : Char) : List (List Char) → List Char
  | [] => []
  | [g] => g
  | g :: g2 :: gs => g ++ sep :: joinWith sep (g2 :: gs)

/-- Modelled from the spec's words (for comparison with the source's
`split("=")[1]`): "the entire substring of the response body that follows
the first `=` delimiter". -/
def specAfterFirstEq (s : String) : String :=
  String.mk (joinWith '=' ((splitOnChar '=' s.toList).drop 1))

/-! Pairing server (`linkSteamWithRustPlus`).  The express listener serves
`GET /`, `POST /submit-token` and `GET /callback`; `server.close()` plus
`resolve(token)` end the session.  A request either reaches the handler
(listener open) or is refused (listener closed). -/

/-- An HTTP request to the pairing server.  `submitToken` carries the
`token` field of the urlencoded body (`none` = field absent), `callback`
the `token` query parameter (`none` = absent). -/
inductive HReq where
  | root
  | submitToken (token : Option String)
  | callback (token : Option String)
deriving Repr, DecidableEq

/-- Response observed by the browser: an HTML/text answer with a status
code, or a refused connection (listener closed). -/
inductive HResp where
  | html (status : Nat) (body : String)
  | refused
deriving Repr, DecidableEq

/-- Pairing-server state: whether the listener still accepts connections
and the (write-once) value of the session promise. -/
structure SState where
  listening : Bool
  resolved : Option String
deriving Repr, DecidableEq

/-- JavaScript truthiness of the optional token string: absent (`undefined`)
and the empty string are falsy. -/
def truthy : Option String → Bool
  | none => false
  | some s => !(s == "")

/-- A promise resolves only once: later `resolve` calls are no-ops. -/
def resolveOnce : Option String → String → Option String
  | some x, _ => some x
  | none, t => some t

/-- Body of the `/submit-token` success answer (accents simplified). -/
def submitOkBody : String := "Token recu. Tu peux fermer cette fenetre."

/-- Body of the `/callback` success answer. -/
def callbackOkBody : String :=
  "Steam Account successfully linked with rustplus.js, you can now close this window and go back to the console."

/-- Informational page answered by `GET /callback` without a token: points
the user back to `/` (HTML text abridged; no claim depends on its bytes). -/
def callbackInfoBody : String :=
  "<!doctype html><html><body><h2>Callback recu - aucun token dans la page.</h2><p>Si tu as un token, colle-le dans la page de pairing.</p></body></html>"

/-- Instructional page served by `GET /` (HTML text abridged; it changes no
state and no claim depends on its bytes). -/
def rootPageBody : String := "Rust+ Pairing instructions page"

/-- The express route handlers of `linkSteamWithRustPlus`:
* `POST /submit-token` with a truthy `token` answers 200, closes the
  listener and resolves the promise; otherwise answers `400 Token manquant`.
* `GET /callback` with a truthy `token` query does the same with its own
  success text; otherwise answers the informational page.
* `GET /` serves the instructional page. -/
def handle (st : SState) : HReq → SState × HResp
  | .root => (st, .html 200 rootPageBody)
  | .submitToken o =>
    if truthy o then
      ({ listening := false, resolved := resolveOnce st.resolved (o.getD "") },
        .html 200 submitOkBody)
    else (st, .html 400 "Token manquant")
  | .callback o =>
    if truthy o then
      ({ listening := false, resolved := resolveOnce st.resolved (o.getD "") },
        .html 200 callbackOkBody)
    else (st, .html 200 callbackInfoBody)

/-- One request against the server: handled while the listener is open,
refused after `server.close()`. -/
def step (st : SState) (r : HReq) : SState × HResp :=
  if st.listening then handle st r else (st, .refused)

/-- A whole interleaving of requests, in arrival order. -/
def run : SState → List HReq → SState × List HResp
  | st, [] => (st, [])
  | st, r :: rs =>
    match step st r with
    | (st2, resp) =>
      match run st2 rs with
      | (st3, resps) => (st3, resp :: resps)

/-- Server state right after `app.listen` succeeds. -/
def initState : SState := { listening := true, resolved := none }

/-- The token a request would complete the session with, if any. -/
def tokenOf : HReq → Option String
  | .root => none
  | .submitToken o => if truthy o then o else none
  | .callback o => if truthy o then o else none

/-- The token of the first completion-capable request of an interleaving. -/
def firstCompletion : List HReq → Option String
  | [] => none
  | r :: rs =>
    match tokenOf r with
    | some t => some t
    | none => firstCompletion rs

/-- Whether a response is one of the two completion answers. -/
def isCompletion : HResp → Bool
  | .html s b => s == 200 && (b == submitOkBody || b == callbackOkBody)
  | .refused => false

/-! `parseRustCredsString`.  The source matches the trimmed input against
the regexes `\bandroidId\b\s*:\s*"?([0-9]+)"?` and
`\bsecurityToken\b\s*:\s*"?([0-9]+)"?` (first match wins, leftmost
starting position, greedy digit run).  The scanner below implements
exactly that matching discipline over `List Char`. -/

/-- JavaScript regex word character (`\w` = `[A-Za-z0-9_]`). -/
def isWordChar (c : Char) : Bool := c.isAlphanum || c = '_'

/-- JavaScript regex whitespace (`\s`), restricted to the ASCII cases. -/
def isWs (c : Char) : Bool :=
  c = ' ' || c = '\t' || c = '\n' || c = '\r' || c = '\x0b' || c = '\x0c'

/-- `String.prototype.trim`: strip leading and trailing whitespace. -/
def trimChars (cs : List Char) : List Char :=
  ((cs.dropWhile isWs).reverse.dropWhile isWs).reverse

/-- Skip `\s*`. -/
def dropWs (cs : List Char) : List Char := cs.dropWhile isWs

/-- Greedy `[0-9]+`-style split: maximal digit prefix and the rest. -/
def takeDigits : List Char → List Char × List Char
  | [] => ([], [])
  | c :: cs =>
    if c.isDigit then
      match takeDigits cs with
      | (d, r) => (c :: d, r)
    else ([], c :: cs)

/-- Strip an exact prefix, or fail. -/
def stripPfx : List Char → List Char → Option (List Char)
  | [], cs => some cs
  | _ :: _, [] => none
  | k :: ks, c :: cs => if k = c then stripPfx ks cs else none

/-- `\b` after the key: the next character (if any) is not a word char. -/
def boundaryOk : List Char → Bool
  | [] => true
  | c :: _ => !(isWordChar c)

/-- `\s*:\s*"?([0-9]+)"?` right after the key: returns the captured digit
run, or `none` when the tail does not match. -/
def matchValue (cs : List Char) : Option (List Char) :=
  match dropWs cs with
  | ':' :: cs2 =>
    let cs3 := dropWs cs2
    let cs4 :=
      match cs3 with
      | c0 :: t => if c0 = '"' then t else cs3
      | [] => cs3
    (match takeDigits cs4 with
     | ([], _) => none
     | (d, _) => some d)
  | _ => none

/-- Try the whole pattern with the key starting at this position (the
position itself must already sit at a `\b` boundary). -/
def matchKeyHere (key cs : List Char) : Option (List Char) :=
  match stripPfx key cs with
  | none => none
  | some rest => if boundaryOk rest then matchValue rest else none

/-- Regex-engine scan: try each starting position left to right; `bdry`
records whether the previous character (or start of input) forms a `\b`
boundary with a word character. -/
def findKey (key : List Char) : Bool → List Char → Option (List Char)
  | _, [] => none
  | bdry, c :: cs =>
    match (if bdry then matchKeyHere key (c :: cs) else none) with
    | some d => some d
    | none => findKey key (!(isWordChar c)) cs

/-- The characters of the key `androidId`. -/
def androidKeyChars : List Char := ['a', 'n', 'd', 'r', 'o', 'i', 'd', 'I', 'd']

/-- The characters of the key `securityToken`. -/
def securityKeyChars : List Char :=
  ['s', 'e', 'c', 'u', 'r', 'i', 't', 'y', 'T', 'o', 'k', 'e', 'n']

/-- The two exact-digit credential strings extracted by the parser. -/
structure RustCreds where
  androidId : String
  securityToken : String
deriving Repr, DecidableEq

/-- `parseRustCredsString`: trim; require `{`…`}`; find both keys by the
regex scan; re-check that both captures are all digits (error messages kept
without accents/apostrophes). -/
def parseRustCredsString (s : String) : Except String RustCreds :=
  let trimmed := trimChars s.toList
  if (trimmed.head? == some '{') && (trimmed.getLast? == some '}') then
    match findKey androidKeyChars true trimmed,
          findKey securityKeyChars true trimmed with
    | some a, some t =>
      if a.all Char.isDigit && t.all Char.isDigit then
        .ok { androidId := String.mk a, securityToken := String.mk t }
      else .error "androidId/securityToken doivent etre uniquement des chiffres."
    | _, _ =>
      .error "Format inattendu pour dataRust. Attendu des cles androidId et securityToken (ordre indifferent)."
  else
    .error "Format inattendu pour dataRust (doit commencer par \x7b et finir par \x7d)."

/-- Whether the parser threw (all its throws are format errors). -/
def isErr : Except String RustCreds → Bool
  | .error _ => true
  | .ok _ => false

/-- Optional quoting of a value, as accepted by `"?([0-9]+)"?`. -/
def quoteWrap (q : Bool) (ds : List Char) : List Char :=
  if q then '"' :: ds ++ ['"'] else ds

/-- A well-formed credential input
`{androidId:D1,securityToken:D2}` with optional quotes and either key
order (`androidFirst`). -/
def credsInput (androidFirst q1 q2 : Bool) (d1 d2 : List Char) : List Char :=
  let f1 := androidKeyChars ++ ':' :: quoteWrap q1 d1
  let f2 := securityKeyChars ++ ':' :: quoteWrap q2 d2
  '{' :: (if androidFirst then f1 ++ ',' :: f2 else f2 ++ ',' :: f1) ++ ['}']

/-- Boundary state of the scanner after walking over `p` starting from
boundary state `b`. -/
def bAfter (p : List Char) (b : Bool) : Bool :=
  match p.getLast? with
  | none => b
  | some c => !(isWordChar c)

/-! `AndroidFCM.generateFirebaseFID`: 17 random bytes, high nibble of the
first byte forced to `0b0111`, base64-encoded with `=` padding stripped.
Bytes are `Nat` with explicit `< 256` bounds; the base64 codec below models
Node `Buffer.toString("base64")` with the standard alphabet. -/

/-- The standard base64 alphabet. -/
def b64Alphabet : List Char :=
  "ABCDEFGHIJKLMNOPQRSTUVWXYZabcdefghijklmnopqrstuvwxyz0123456789+/".toList

/-- The character for a 6-bit group. -/
def sixToChar (n : Nat) : Char := b64Alphabet.getD n 'A'

/-- The 6-bit group of an alphabet character. -/
def charToSix (c : Char) : Nat := b64Alphabet.indexOf c

/-- base64 encoding of a byte list, with `=` padding. -/
def b64encodeBytes : List Nat → List Char
  | a :: b :: c :: rest =>
    sixToChar (a / 4) :: sixToChar ((a % 4) * 16 + b / 16) ::
      sixToChar ((b % 16) * 4 + c / 64) :: sixToChar (c % 64) :: b64encodeBytes rest
  | [a, b] =>
    [sixToChar (a / 4), sixToChar ((a % 4) * 16 + b / 16), sixToChar ((b % 16) * 4), '=']
  | [a] => [sixToChar (a / 4), sixToChar ((a % 4) * 16), '=', '=']
  | [] => []

/-- base64 decoding of an unpadded character list. -/
def b64decode : List Char → List Nat
  | c1 :: c2 :: c3 :: c4 :: rest =>
    ((charToSix c1) * 4 + (charToSix c2) / 16) ::
      (((charToSix c2) % 16) * 16 + (charToSix c3) / 4) ::
      (((charToSix c3) % 4) * 64 + charToSix c4) :: b64decode rest
  | [c1, c2, c3] =>
    [(charToSix c1) * 4 + (charToSix c2) / 16,
     ((charToSix c2) % 16) * 16 + (charToSix c3) / 4]
  | [c1, c2] => [(charToSix c1) * 4 + (charToSix c2) / 16]
  | _ => []

/-- `.replace(/=/g, "")`: remove every `=`. -/
def stripEq (cs : List Char) : List Char := cs.filter (fun c => !(c == '='))

/-- `buf[0] = 0b01110000 | (buf[0] & 0b00001111)` applied to the drawn
random bytes. -/
def fixFid : List Nat → List Nat
  | [] => []
  | b0 :: rest => (112 ||| (b0 &&& 15)) :: rest

/-- `AndroidFCM.generateFirebaseFID` as a function of the 17 random bytes
drawn by `crypto.randomBytes`. -/
def generateFirebaseFID (bytes : List Nat) : String :=
  String.mk (stripEq (b64encodeBytes (fixFid bytes)))

/-! `AndroidFCM.installRequest`.  axios delivers `response.data` already
parsed: a JavaScript object when the body is valid JSON, the raw body
string otherwise.  The template literal `${response.data}` renders an
object as `[object Object]` and a string as itself. -/

/-- The parsed `response.data` of the installation call, restricted to what
the code inspects: either a non-JSON body (the data IS the raw string), or
a JSON object whose `authToken` field is absent/falsy (`none`) or an object
with an optional `token` string. -/
inductive AxiosData where
  | raw
  | jsonObj (authToken : Option (Option String))
deriving Repr, DecidableEq

/-- An installation-service response: its raw body and parsed data. -/
structure InstallResponse where
  rawBody : String
  data : AxiosData
deriving Repr, DecidableEq

/-- JavaScript string conversion of `response.data`. -/
def dataToString (r : InstallResponse) : String :=
  match r.data with
  | .raw => r.rawBody
  | .jsonObj _ => "[object Object]"

/-- The thrown message
`` `Failed to get Firebase installation AuthToken: ${response.data}` ``. -/
def installErrMsg (r : InstallResponse) : String :=
  "Failed to get Firebase installation AuthToken: " ++ dataToString r

/-- `AndroidFCM.installRequest` after the HTTP exchange: throw unless
`response.data.authToken.token` is truthy, else return the token. -/
def installRequest (r : InstallResponse) : Except String String :=
  match r.data with
  | .jsonObj (some (some t)) =>
    if t == "" then .error (installErrMsg r) else .ok t
  | _ => .error (installErrMsg r)

/-! Config persistence (`readConfig` / `updateConfig`) and the orchestrator
(`fcmRegister`).  JSON objects are association lists of string keys; the
spread `{...currentConfig, ...config}` and `JSON.stringify(·, null, 2)` are
modelled below. -/

/-- JSON values as used by the persisted bundle: strings and objects. -/
inductive JVal where
  | str (s : String)
  | obj (fields : List (String × JVal))
deriving Repr

/-- `n` spaces. -/
def spaces (n : Nat) : String := String.mk (List.replicate n ' ')

/-- JSON string escaping as performed by `JSON.stringify`. -/
def escapeChar (c : Char) : List Char :=
  if c = '"' then ['\\', '"']
  else if c = '\\' then ['\\', '\\']
  else if c = '\x08' then ['\\', 'b']
  else if c = '\x09' then ['\\', 't']
  else if c = '\x0a' then ['\\', 'n']
  else if c = '\x0c' then ['\\', 'f']
  else if c = '\x0d' then ['\\', 'r']
  else if c.toNat < 32 then
    ['\\', 'u', '0', '0',
      (if c.toNat / 16 < 10 then Char.ofNat (48 + c.toNat / 16)
       else Char.ofNat (87 + c.toNat / 16)),
      (if c.toNat % 16 < 10 then Char.ofNat (48 + c.toNat % 16)
       else Char.ofNat (87 + c.toNat % 16))]
  else [c]

/-- A JSON string literal with quotes and escapes. -/
def jsonQuote (s : String) : String :=
  String.mk ('"' :: s.toList.foldr (fun c acc => escapeChar c ++ acc) ['"'])

mutual
/-- `JSON.stringify(v, null, 2)` at nesting depth `d`. -/
def printJVal (d : Nat) : JVal → String
  | .str s => jsonQuote s
  | .obj [] => "\x7b\x7d"
  | .obj (f :: fs) =>
    "\x7b\n" ++ printFields d (f :: fs) ++ "\n" ++ spaces (2 * d) ++ "\x7d"
/-- The `",\n"`-separated, indented field lines of an object at depth `d`. -/
def printFields (d : Nat) : List (String × JVal) → String
  | [] => ""
  | [(k, v)] => spaces (2 * (d + 1)) ++ jsonQuote k ++ ": " ++ printJVal (d + 1) v
  | (k, v) :: f :: fs =>
    spaces (2 * (d + 1)) ++ jsonQuote k ++ ": " ++ printJVal (d + 1) v ++ ",\n" ++
      printFields d (f :: fs)
end

/-- JavaScript property lookup on an object (association list). -/
def getVal (k : String) : List (String × JVal) → Option JVal
  | [] => none
  | (k2, v) :: t => if k2 = k then some v else getVal k t

/-- Replace the value stored under an existing key, keeping its position. -/
def setVal (k : String) (v : JVal) : List (String × JVal) → List (String × JVal)
  | [] => []
  | (k2, v2) :: t =>
    if k2 = k then (k, v) :: setVal k v t else (k2, v2) :: setVal k v t

/-- JavaScript property assignment: update in place if the key exists,
append otherwise (insertion-order semantics). -/
def setKey (l : List (String × JVal)) (k : String) (v : JVal) :
    List (String × JVal) :=
  if (getVal k l).isSome then setVal k v l else l ++ [(k, v)]

/-- JavaScript object spread `{...a, ...b}`: assign every field of `b`
over a copy of `a`. -/
def mergeObj (a b : List (String × JVal)) : List (String × JVal) :=
  b.foldl (fun acc kv => setKey acc kv.1 kv.2) a

/-- The persisted file as `readConfig` observes it.  `JSON.parse` is a
platform primitive, modelled by its outcome: `invalid` covers any contents
it throws on. -/
inductive FileState where
  | absent
  | invalid
  | parsed (obj : List (String × JVal))

/-- `readConfig`: `JSON.parse(readFileSync(...))` inside try/catch — an
absent file or unparseable contents yield `{}`. -/
def readConfig : FileState → List (String × JVal)
  | .absent => []
  | .invalid => []
  | .parsed o => o

/-- `updateConfig`: spread the new fields over the current config and write
`JSON.stringify(updatedConfig, null, 2)`; returns the merged object and the
written file text. -/
def updateConfig (currentConfig config : List (String × JVal)) :
    List (String × JVal) × String :=
  let updatedConfig := mergeObj currentConfig config
  (updatedConfig, printJVal 0 (JVal.obj updatedConfig))

/-- `updateConfig` as called on an actual file. -/
def updateConfigFile (fs : FileState) (config : List (String × JVal)) :
    List (String × JVal) × String :=
  updateConfig (readConfig fs) config

/-- Failure modes of one `fcmRegister` run (the source throws `Error`s or
calls `process.exit(1)`). -/
inductive OrchError where
  | authError (msg : String)
  | networkError
  | registrationError (msg : String)
  | expoFailed
  | pairingPending
  | finalizeFailed
deriving Repr, DecidableEq

/-- The value `AndroidFCM.register` resolves with (`gcm` identity plus the
`fcm` token; the token is `none` when the register response had no `=`). -/
structure FcmCredentials where
  androidId : String
  securityToken : String
  fcmToken : Option String
deriving Repr, DecidableEq

/-- The environment of one orchestrator run: every externally observed
response.  `checkInResp` is the `(androidId, securityToken)` pair of the
GCM check-in (its implementation lives outside this repository's sources),
`registerResps` the register bodies per retry, `pairingReqs` the browser
requests hitting the pairing server. -/
structure Env where
  installResp : InstallResponse
  checkInResp : Option (String × String)
  registerResps : Nat → String
  expoResp : Option String
  pairingReqs : List HReq
  finalizeOk : Bool

/-- `AndroidFCM.register`: installation, check-in, then GCM registration,
packaging `{gcm: {androidId, securityToken}, fcm: {token}}`. -/
def androidRegister (env : Env) : Except OrchError FcmCredentials :=
  match installRequest env.installResp with
  | .error m => .error (.authError m)
  | .ok installationAuthToken =>
    match env.checkInResp with
    | none => .error .networkError
    | some (androidId, securityToken) =>
      match (registerRequest env.registerResps androidId securityToken
          installationAuthToken).result with
      | .error m => .error (.registrationError m)
      | .ok fcmToken =>
        .ok { androidId := androidId, securityToken := securityToken,
              fcmToken := fcmToken }

/-- The `fcm_credentials` object as persisted (a JavaScript `undefined`
token field is dropped by `JSON.stringify`). -/
def credsJson (c : FcmCredentials) : JVal :=
  .obj [("gcm", .obj [("androidId", .str c.androidId),
                      ("securityToken", .str c.securityToken)]),
        ("fcm", .obj (match c.fcmToken with
          | some t => [("token", .str t)]
          | none => []))]

/-- The orchestrator `fcmRegister`: register with FCM, fetch the Expo push
token, wait for the pairing server to resolve, register with the companion
API, then persist the bundle over the current config. -/
def fcmRegister (env : Env) (currentConfig : List (String × JVal)) :
    Except OrchError (List (String × JVal) × String) :=
  match androidRegister env with
  | .error e => .error e
  | .ok fcmCredentials =>
    match env.expoResp with
    | none => .error .expoFailed
    | some expoPushToken =>
      match (run initState env.pairingReqs).1.resolved with
      | none => .error .pairingPending
      | some rustplusAuthToken =>
        if env.finalizeOk then
          .ok (updateConfig currentConfig
            [("fcm_credentials", credsJson fcmCredentials),
             ("expo_push_token", .str expoPushToken),
             ("rustplus_auth_token", .str rustplusAuthToken)])
        else .error .finalizeFailed

theorem go_err_stop (responses : Nat → String) (a s i : String) (retry : Nat)
    (hE : hasError (responses retry) = true) (h5 : 5 ≤ retry) :
    registerRequestGo responses a s i retry =
      { result := .error "GCM register has failed", attempts := 1,
        delays := [], creds := [(a, s, i)] } := by
  rw [registerRequestGo]
  simp [hE, h5]

theorem go_err_next (responses : Nat → String) (a s i : String) (retry : Nat)
    (hE : hasError (responses retry) = true) (h5 : ¬ 5 ≤ retry) :
    registerRequestGo responses a s i retry =
      { result := (registerRequestGo responses a s i (retry + 1)).result,
        attempts := (registerRequestGo responses a s i (retry + 1)).attempts + 1,
        delays := 1000 :: (registerRequestGo responses a s i (retry + 1)).delays,
        creds := (a, s, i) :: (registerRequestGo responses a s i (retry + 1)).creds } := by
  rw [registerRequestGo]
  simp [hE, h5]

theorem go_ok (responses : Nat → String) (a s i : String) (retry : Nat)
    (hE : hasError (responses retry) = false) :
    registerRequestGo responses a s i retry =
      { result := .ok (tokenFromBody (responses retry)), attempts := 1,
        delays := [], creds := [(a, s, i)] } := by
  rw [registerRequestGo]
  simp [hE]

theorem go_shape (responses : Nat → String) (a s i : String) :
    ∀ m retry, 6 - retry ≤ m →
      1 ≤ (registerRequestGo responses a s i retry).attempts
      ∧ (registerRequestGo responses a s i retry).attempts ≤ max 1 (6 - retry)
      ∧ (registerRequestGo responses a s i retry).delays =
          List.replicate ((registerRequestGo responses a s i retry).attempts - 1) 1000
      ∧ (registerRequestGo responses a s i retry).creds =
          List.replicate (registerRequestGo responses a s i retry).attempts (a, s, i) := by
  intro m
  induction m with
  | zero =>
    intro retry h
    have h5 : 5 ≤ retry := by omega
    by_cases hE : hasError (responses retry) = true
    · rw [go_err_stop responses a s i retry hE h5]
      simp
    · rw [go_ok responses a s i retry (by simpa using hE)]
      simp
  | succ m ih =>
    intro retry h
    by_cases hE : hasError (responses retry) = true
    · by_cases h5 : 5 ≤ retry
      · rw [go_err_stop responses a s i retry hE h5]
        simp
      · rw [go_err_next responses a s i retry hE h5]
        obtain ⟨ih1, ih2, ih3, ih4⟩ := ih (retry + 1) (by omega)
        refine ⟨by simp, ?_, ?_, ?_⟩
        · simp only []
          omega
        · simp only [ih3]
          have ht : (registerRequestGo responses a s i (retry + 1)).attempts =
              ((registerRequestGo responses a s i (retry + 1)).attempts - 1) + 1 := by omega
          conv_rhs => rw [Nat.add_sub_cancel, ht, List.replicate_succ]
        · simp only [ih4]
          rw [List.replicate_succ]
    · rw [go_ok responses a s i retry (by simpa using hE)]
      simp

theorem go_all_error (responses : Nat → String) (a s i : String) :
    ∀ m retry, 5 - retry ≤ m → retry ≤ 5 →
      (∀ k, retry ≤ k → k ≤ 5 → hasError (responses k) = true) →
      (registerRequestGo responses a s i retry).result = .error "GCM register has failed"
      ∧ (registerRequestGo responses a s i retry).attempts = 6 - retry := by
  intro m
  induction m with
  | zero =>
    intro retry h hle hall
    have h5 : retry = 5 := by omega
    subst h5
    rw [go_err_stop responses a s i 5 (hall 5 (by omega) (by omega)) (by omega)]
    simp
  | succ m ih =>
    intro retry h hle hall
    by_cases h5 : 5 ≤ retry
    · have h5' : retry = 5 := by omega
      subst h5'
      rw [go_err_stop responses a s i 5 (hall 5 (by omega) (by omega)) (by omega)]
      simp
    · rw [go_err_next responses a s i retry (hall retry (by omega) (by omega)) h5]
      obtain ⟨ih1, ih2⟩ := ih (retry + 1) (by omega) (by omega)
        (fun k hk1 hk2 => hall k (by omega) hk2)
      refine ⟨ih1, ?_⟩
      simp only [ih2]
      omega

/-- C1: for every sequence of registration responses, `registerRequest`
makes at most 6 attempts, performs a fixed 1000 ms delay before each retry,
sends the same `(androidId, securityToken, installationAuthToken)` triple on
every attempt, and if the first six response bodies all contain `Error`
it fails with the registration error after exactly 6 attempts (no 7th). -/
theorem c1_register_retry_policy (responses : Nat → String) (a s i : String) :
    (registerRequest responses a s i).attempts ≤ 6
    ∧ 1 ≤ (registerRequest responses a s i).attempts
    ∧ (registerRequest responses a s i).delays =
        List.replicate ((registerRequest responses a s i).attempts - 1) 1000
    ∧ (registerRequest responses a s i).creds =
        List.replicate (registerRequest responses a s i).attempts (a, s, i)
    ∧ ((∀ k, k ≤ 5 → hasError (responses k) = true) →
        (registerRequest responses a s i).result = .error "GCM register has failed"
        ∧ (registerRequest responses a s i).attempts = 6) := by
  obtain ⟨h1, h2, h3, h4⟩ := go_shape responses a s i 6 0 (by omega)
  refine ⟨by simpa [registerRequest] using h2, by simpa [registerRequest] using h1,
    by simpa [registerRequest] using h3, by simpa [registerRequest] using h4, ?_⟩
  intro hall
  obtain ⟨he1, he2⟩ := go_all_error responses a s i 5 0 (by omega) (by omega)
    (fun k _ hk2 => hall k hk2)
  exact ⟨by simpa [registerRequest] using he1, by simpa [registerRequest] using he2⟩

theorem c1_register_retry_policy_witness :
    (registerRequest (fun _ => "Error") "aid" "sec" "tok").result =
      .error "GCM register has failed"
    ∧ (registerRequest (fun _ => "Error") "aid" "sec" "tok").attempts = 6
    ∧ (registerRequest (fun _ => "Error") "aid" "sec" "tok").attempts ≤ 6 := by
  have h := c1_register_retry_policy (fun _ => "Error") "aid" "sec" "tok"
  have he := h.2.2.2.2 (fun k _ => by decide)
  exact ⟨he.1, he.2, h.1⟩

/-- C2 counterexample: on the non-error response body `ok=AB=CD` the code
returns `AB` (the chunk between the first and second `=`), not the entire
substring `AB=CD` following the first `=` as the claim states. -/
theorem c2_counterexample :
    (registerRequest (fun _ => "ok=AB=CD") "a" "s" "i").result = .ok (some "AB")
    ∧ specAfterFirstEq "ok=AB=CD" = "AB=CD"
    ∧ (registerRequest (fun _ => "ok=AB=CD") "a" "s" "i").result
        ≠ .ok (some (specAfterFirstEq "ok=AB=CD")) := by
  have ht : tokenFromBody "ok=AB=CD" = some "AB" := by decide
  have hr : (registerRequest (fun _ => "ok=AB=CD") "a" "s" "i").result = .ok (some "AB") := by
    rw [registerRequest, go_ok _ _ _ _ _ (by decide)]
    simp [ht]
  have hs : specAfterFirstEq "ok=AB=CD" = "AB=CD" := by decide
  refine ⟨hr, hs, ?_⟩
  rw [hr, hs]
  intro hcontra
  simp at hcontra

/-- C2 (amended): on a non-error response the returned push token is
`data.split("=")[1]` — the chunk of the body strictly between the first `=`
and the next `=` (or the end of the body) — obtained on the first attempt
with no delays. -/
theorem c2_token_extraction_amended (responses : Nat → String) (a s i : String)
    (h : hasError (responses 0) = false) :
    (registerRequest responses a s i).result = .ok (tokenFromBody (responses 0))
    ∧ (∀ pre seg rest, splitOnChar '=' (responses 0).toList = pre :: seg :: rest →
        (registerRequest responses a s i).result = .ok (some (String.mk seg)))
    ∧ (registerRequest responses a s i).attempts = 1
    ∧ (registerRequest responses a s i).delays = [] := by
  rw [registerRequest, go_ok _ _ _ _ _ h]
  refine ⟨rfl, ?_, rfl, rfl⟩
  intro pre seg rest hsplit
  simp only [tokenFromBody]
  rw [hsplit]

theorem c2_token_extraction_amended_witness :
    (registerRequest (fun _ => "x=ABC123") "a" "s" "i").result =
      .ok (tokenFromBody "x=ABC123")
    ∧ (registerRequest (fun _ => "x=ABC123") "a" "s" "i").attempts = 1 := by
  have h := c2_token_extraction_amended (fun _ => "x=ABC123") "a" "s" "i" (by decide)
  exact ⟨h.1, h.2.2.1⟩

/-- C3: while the server is Listening, `POST /submit-token` with a non-empty
token resolves the session with exactly that token and closes the listener;
with an absent or empty token it answers 400 and changes no state;
`GET /callback` with a token query resolves and closes identically; without
one it answers the informational page and changes no state. -/
theorem c3_pairing_routes (st : SState) (t : String)
    (hL : st.listening = true) (hR : st.resolved = none) (hT : t ≠ "") :
    step st (.submitToken (some t)) =
      ({ listening := false, resolved := some t }, .html 200 submitOkBody)
    ∧ step st (.submitToken none) = (st, .html 400 "Token manquant")
    ∧ step st (.submitToken (some "")) = (st, .html 400 "Token manquant")
    ∧ step st (.callback (some t)) =
      ({ listening := false, resolved := some t }, .html 200 callbackOkBody)
    ∧ step st (.callback none) = (st, .html 200 callbackInfoBody) := by
  obtain ⟨l, r⟩ := st
  dsimp only at hL hR
  subst hL
  subst hR
  have htr : truthy (some t) = true := by simp [truthy, hT]
  refine ⟨?_, ?_, ?_, ?_, ?_⟩ <;> simp [step, handle, htr, truthy, resolveOnce, hT]

theorem c3_pairing_routes_witness :
    step { listening := true, resolved := none } (.submitToken (some "abc")) =
      ({ listening := false, resolved := some "abc" }, .html 200 submitOkBody)
    ∧ step { listening := true, resolved := none } (.submitToken none) =
      ({ listening := true, resolved := none }, .html 400 "Token manquant")
    ∧ step { listening := true, resolved := none } (.callback (some "abc")) =
      ({ listening := false, resolved := some "abc" }, .html 200 callbackOkBody)
    ∧ step { listening := true, resolved := none } (.callback none) =
      ({ listening := true, resolved := none }, .html 200 callbackInfoBody) := by
  have h := c3_pairing_routes { listening := true, resolved := none } "abc" rfl rfl
    (by decide)
  exact ⟨h.1, h.2.1, h.2.2.2.1, h.2.2.2.2⟩

theorem run_closed (reqs : List HReq) :
    ∀ st : SState, st.listening = false →
      run st reqs = (st, List.replicate reqs.length HResp.refused) := by
  induction reqs with
  | nil => intro st h; simp [run]
  | cons r rs ih =>
    intro st h
    simp [run, step, h, ih st h, List.replicate_succ]

theorem countP_refused (n : Nat) :
    List.countP isCompletion (List.replicate n HResp.refused) = 0 := by
  induction n with
  | zero => simp
  | succ n ih => simp [List.replicate_succ, List.countP_cons, ih, isCompletion]

theorem run_open (reqs : List HReq) :
    ∀ st : SState, st.listening = true → st.resolved = none →
      ((run st reqs).1.resolved = firstCompletion reqs)
      ∧ ((run st reqs).1.listening = (firstCompletion reqs).isNone)
      ∧ (List.countP isCompletion (run st reqs).2 =
          if (firstCompletion reqs).isSome then 1 else 0) := by
  induction reqs with
  | nil =>
    intro st h1 h2
    simp [run, firstCompletion, h2, h1]
  | cons r rs ih =>
    intro st h1 h2
    cases r with
    | root =>
      have hstep : step st HReq.root = (st, HResp.html 200 rootPageBody) := by
        simp [step, h1, handle]
      rcases hrun : run st rs with ⟨st2, resps⟩
      obtain ⟨ih1, ih2, ih3⟩ := ih st h1 h2
      rw [hrun] at ih1 ih2 ih3
      dsimp only at ih1 ih2 ih3
      have hic : isCompletion (.html 200 rootPageBody) = false := by decide
      simp [run, hstep, hrun, firstCompletion, tokenOf, List.countP_cons, hic, ih1,
        ih2, ih3]
    | submitToken o =>
      by_cases hto : truthy o = true
      · obtain ⟨t, rfl⟩ : ∃ t, o = some t := by
          cases o with
          | none => simp [truthy] at hto
          | some t => exact ⟨t, rfl⟩
        have hstep : step st (HReq.submitToken (some t)) =
            ({ listening := false, resolved := some t }, .html 200 submitOkBody) := by
          simp [step, h1, handle, hto, resolveOnce, h2]
        have hclosed := run_closed rs { listening := false, resolved := some t } rfl
        have hic : isCompletion (.html 200 submitOkBody) = true := by decide
        simp [run, hstep, hclosed, firstCompletion, tokenOf, hto, List.countP_cons,
          hic, countP_refused]
      · have hstep : step st (HReq.submitToken o) = (st, .html 400 "Token manquant") := by
          simp [step, h1, handle, hto]
        rcases hrun : run st rs with ⟨st2, resps⟩
        obtain ⟨ih1, ih2, ih3⟩ := ih st h1 h2
        rw [hrun] at ih1 ih2 ih3
        dsimp only at ih1 ih2 ih3
        have hic : isCompletion (.html 400 "Token manquant") = false := by decide
        simp [run, hstep, hrun, firstCompletion, tokenOf, hto, List.countP_cons, hic,
          ih1, ih2, ih3]
    | callback o =>
      by_cases hto : truthy o = true
      · obtain ⟨t, rfl⟩ : ∃ t, o = some t := by
          cases o with
          | none => simp [truthy] at hto
          | some t => exact ⟨t, rfl⟩
        have hstep : step st (HReq.callback (some t)) =
            ({ listening := false, resolved := some t }, .html 200 callbackOkBody) := by
          simp [step, h1, handle, hto, resolveOnce, h2]
        have hclosed := run_closed rs { listening := false, resolved := some t } rfl
        have hic : isCompletion (.html 200 callbackOkBody) = true := by decide
        simp [run, hstep, hclosed, firstCompletion, tokenOf, hto, List.countP_cons,
          hic, countP_refused]
      · have hstep : step st (HReq.callback o) = (st, .html 200 callbackInfoBody) := by
          simp [step, h1, handle, hto]
        rcases hrun : run st rs with ⟨st2, resps⟩
        obtain ⟨ih1, ih2, ih3⟩ := ih st h1 h2
        rw [hrun] at ih1 ih2 ih3
        dsimp only at ih1 ih2 ih3
        have hic : isCompletion (.html 200 callbackInfoBody) = false := by decide
        simp [run, hstep, hrun, firstCompletion, tokenOf, hto, List.countP_cons, hic,
          ih1, ih2, ih3]

/-- C4: over every interleaving of requests the session resolves exactly
once, with the token of the first token-bearing request (first completion
wins); the listener is open at the end iff no completion happened; exactly
one completion answer is emitted when a completion exists; and once the
listener is closed every further request — in particular a second
completion attempt — observes a refused connection and changes nothing. -/
theorem c4_single_resolution (reqs : List HReq) :
    ((run initState reqs).1.resolved = firstCompletion reqs)
    ∧ ((run initState reqs).1.listening = (firstCompletion reqs).isNone)
    ∧ (List.countP isCompletion (run initState reqs).2 =
        if (firstCompletion reqs).isSome then 1 else 0)
    ∧ (∀ st : SState, st.listening = false →
        run st reqs = (st, List.replicate reqs.length HResp.refused)) := by
  obtain ⟨h1, h2, h3⟩ := run_open reqs initState rfl rfl
  exact ⟨h1, h2, h3, run_closed reqs⟩

theorem c4_single_resolution_witness :
    (run initState [HReq.submitToken (some "abc"), HReq.callback (some "xyz")]).1.resolved
      = some "abc"
    ∧ (run initState [HReq.submitToken (some "abc"), HReq.callback (some "xyz")]).1.listening
      = false
    ∧ List.countP isCompletion
        (run initState [HReq.submitToken (some "abc"), HReq.callback (some "xyz")]).2 = 1
    ∧ run { listening := false, resolved := some "abc" } [HReq.callback (some "xyz")]
      = ({ listening := false, resolved := some "abc" }, [HResp.refused]) := by
  have h := c4_single_resolution [HReq.submitToken (some "abc"), HReq.callback (some "xyz")]
  refine ⟨?_, ?_, ?_, ?_⟩
  · rw [h.1]; decide
  · rw [h.2.1]; decide
  · rw [h.2.2.1]; decide
  · have h4 := h.2.2.2
    have := c4_single_resolution [HReq.callback (some "xyz")]
    simpa using this.2.2.2 { listening := false, resolved := some "abc" } rfl

theorem digit_ne_of (c x : Char) (h : c.isDigit = true) (hx : x.isDigit = false) :
    c ≠ x := by
  intro he
  rw [he, hx] at h
  cases h

theorem digit_not_ws (c : Char) (h : c.isDigit = true) : isWs c = false := by
  have h1 : c ≠ ' ' := digit_ne_of c ' ' h (by decide)
  have h2 : c ≠ '\t' := digit_ne_of c '\t' h (by decide)
  have h3 : c ≠ '\n' := digit_ne_of c '\n' h (by decide)
  have h4 : c ≠ '\r' := digit_ne_of c '\r' h (by decide)
  have h5 : c ≠ '\x0b' := digit_ne_of c '\x0b' h (by decide)
  have h6 : c ≠ '\x0c' := digit_ne_of c '\x0c' h (by decide)
  simp [isWs, h1, h2, h3, h4, h5, h6]

theorem stripPfx_self_append (k t : List Char) : stripPfx k (k ++ t) = some t := by
  induction k with
  | nil => rfl
  | cons c cs ih => simp [stripPfx, ih]

theorem takeDigits_append (d : List Char) (c : Char) (r : List Char)
    (hd : ∀ x ∈ d, x.isDigit = true) (hc : c.isDigit = false) :
    takeDigits (d ++ c :: r) = (d, c :: r) := by
  induction d with
  | nil => simp [takeDigits, hc]
  | cons x xs ih =>
    have hx : x.isDigit = true := hd x (by simp)
    simp [takeDigits, hx, ih (fun y hy => hd y (by simp [hy]))]

theorem matchValue_at (q : Bool) (d : List Char) (c : Char) (r : List Char)
    (hd : ∀ x ∈ d, x.isDigit = true) (hne : d ≠ []) (hc : c.isDigit = false) :
    matchValue (':' :: (quoteWrap q d ++ c :: r)) = some d := by
  obtain ⟨x, xs, rfl⟩ : ∃ x xs, d = x :: xs := by
    cases d with
    | nil => exact absurd rfl hne
    | cons x xs => exact ⟨x, xs, rfl⟩
  have hx : x.isDigit = true := hd x (by simp)
  have hxw : isWs x = false := digit_not_ws x hx
  have hxq : x ≠ '"' := digit_ne_of x '"' hx (by decide)
  have hcol : isWs ':' = false := by decide
  have hqws : isWs '"' = false := by decide
  cases q with
  | false =>
    have htd : takeDigits (x :: (xs ++ c :: r)) = (x :: xs, c :: r) := by
      simpa using takeDigits_append (x :: xs) c r hd hc
    simp [matchValue, quoteWrap, dropWs, List.dropWhile_cons, hxw, hxq, htd, hcol,
      hqws]
  | true =>
    have htd : takeDigits (x :: (xs ++ '"' :: c :: r)) = (x :: xs, '"' :: c :: r) := by
      simpa using takeDigits_append (x :: xs) '"' (c :: r) hd (by decide)
    simp [matchValue, quoteWrap, dropWs, List.dropWhile_cons, htd, hcol, hqws, hxw]

theorem matchKeyHere_at (key : List Char) (q : Bool) (d : List Char) (c : Char)
    (r : List Char)
    (hd : ∀ x ∈ d, x.isDigit = true) (hne : d ≠ []) (hc : c.isDigit = false) :
    matchKeyHere key (key ++ ':' :: (quoteWrap q d ++ c :: r)) = some d := by
  simp [matchKeyHere, stripPfx_self_append, boundaryOk, isWordChar,
    matchValue_at q d c r hd hne hc]

theorem bAfter_cons (c : Char) (p : List Char) (b : Bool) :
    bAfter (c :: p) b = bAfter p (!(isWordChar c)) := by
  cases p with
  | nil => simp [bAfter]
  | cons d ps =>
    rcases hgl : (d :: ps).getLast? with _ | y
    · simp at hgl
    · simp [bAfter, List.getLast?_cons_cons, hgl]

theorem findKey_skip (k0 : Char) (ks p : List Char) :
    ∀ (b : Bool) (cs : List Char), (∀ c ∈ p, c ≠ k0) →
      findKey (k0 :: ks) b (p ++ cs) = findKey (k0 :: ks) (bAfter p b) cs := by
  induction p with
  | nil =>
    intro b cs _
    simp [bAfter]
  | cons c ps ih =>
    intro b cs h
    have hc : k0 ≠ c := fun he => (h c (by simp)) he.symm
    have hm : matchKeyHere (k0 :: ks) (c :: (ps ++ cs)) = none := by
      simp [matchKeyHere, stripPfx, hc]
    have hstep : findKey (k0 :: ks) b ((c :: ps) ++ cs) =
        findKey (k0 :: ks) (!(isWordChar c)) (ps ++ cs) := by
      cases b <;> simp [findKey, hm]
    rw [hstep, ih (!(isWordChar c)) cs (fun x hx => h x (by simp [hx])), bAfter_cons]

theorem findKey_at (k0 : Char) (ks : List Char) (q : Bool) (d : List Char) (c : Char)
    (r : List Char)
    (hd : ∀ x ∈ d, x.isDigit = true) (hne : d ≠ []) (hc : c.isDigit = false) :
    findKey (k0 :: ks) true ((k0 :: ks) ++ ':' :: (quoteWrap q d ++ c :: r)) =
      some d := by
  have hm := matchKeyHere_at (k0 :: ks) q d c r hd hne hc
  rw [List.cons_append] at hm
  simp [findKey, hm]

theorem trimChars_braced (mid : List Char) :
    trimChars ('{' :: (mid ++ ['}'])) = '{' :: (mid ++ ['}']) := by
  have h1 : isWs '{' = false := by decide
  have h2 : isWs '}' = false := by decide
  simp [trimChars, List.dropWhile_cons, h1, h2, List.reverse_append]

theorem mem_quoteWrap_cases (q : Bool) (d : List Char) (c : Char)
    (hc : c ∈ quoteWrap q d) : c ∈ d ∨ c = '"' := by
  cases q with
  | false => exact .inl (by simpa [quoteWrap] using hc)
  | true =>
    simp [quoteWrap] at hc
    rcases hc with rfl | hc | rfl
    · right; rfl
    · left; exact hc
    · right; rfl

theorem no_s_in_android_field (q1 : Bool) (d1 : List Char)
    (hd1 : ∀ x ∈ d1, x.isDigit = true) :
    ∀ c ∈ '{' :: ((androidKeyChars ++ ':' :: quoteWrap q1 d1) ++ [',']), c ≠ 's' := by
  intro c hc
  rcases List.mem_cons.mp hc with rfl | hc
  · decide
  rcases List.mem_append.mp hc with hc | hc
  · rcases List.mem_append.mp hc with hc | hc
    · fin_cases hc <;> decide
    · rcases List.mem_cons.mp hc with rfl | hc
      · decide
      · rcases mem_quoteWrap_cases q1 d1 c hc with hc | rfl
        · exact digit_ne_of c 's' (hd1 c hc) (by decide)
        · decide
  · rw [List.mem_singleton] at hc
    subst hc
    decide

theorem no_a_in_security_field (q2 : Bool) (d2 : List Char)
    (hd2 : ∀ x ∈ d2, x.isDigit = true) :
    ∀ c ∈ '{' :: ((securityKeyChars ++ ':' :: quoteWrap q2 d2) ++ [',']), c ≠ 'a' := by
  intro c hc
  rcases List.mem_cons.mp hc with rfl | hc
  · decide
  rcases List.mem_append.mp hc with hc | hc
  · rcases List.mem_append.mp hc with hc | hc
    · fin_cases hc <;> decide
    · rcases List.mem_cons.mp hc with rfl | hc
      · decide
      · rcases mem_quoteWrap_cases q2 d2 c hc with hc | rfl
        · exact digit_ne_of c 'a' (hd2 c hc) (by decide)
        · decide
  · rw [List.mem_singleton] at hc
    subst hc
    decide

theorem parse_eval (s : String) (a t : List Char)
    (hbrace : (((trimChars s.toList).head? == some '{') &&
      ((trimChars s.toList).getLast? == some '}')) = true)
    (hfa : findKey androidKeyChars true (trimChars s.toList) = some a)
    (hfs : findKey securityKeyChars true (trimChars s.toList) = some t)
    (ha : a.all Char.isDigit = true) (ht : t.all Char.isDigit = true) :
    parseRustCredsString s =
      .ok { androidId := String.mk a, securityToken := String.mk t } := by
  unfold parseRustCredsString
  rw [if_pos hbrace, hfa, hfs]
  simp [ha, ht]

theorem mk_toList (l : List Char) : (String.mk l).toList = l := rfl

theorem findKey_front (k0 : Char) (ks : List Char) (q : Bool) (d rest : List Char)
    (hd : ∀ x ∈ d, x.isDigit = true) (hn : d ≠ []) (hk0 : k0 ≠ '{') :
    findKey (k0 :: ks) true
      ('{' :: ((k0 :: ks) ++ ':' :: (quoteWrap q d ++ ',' :: rest))) = some d := by
  have hno : ∀ c ∈ ['{'], c ≠ k0 := by
    intro c hc
    rw [List.mem_singleton] at hc
    subst hc
    exact fun he => hk0 he.symm
  have hsk := findKey_skip k0 ks ['{'] true
    ((k0 :: ks) ++ ':' :: (quoteWrap q d ++ ',' :: rest)) hno
  rw [List.singleton_append] at hsk
  rw [hsk]
  have hbb : bAfter ['{'] true = true := by decide
  rw [hbb]
  exact findKey_at k0 ks q d ',' rest hd hn (by decide)

theorem findKey_after_skip (k0 : Char) (ks p : List Char) (q : Bool) (d : List Char)
    (c : Char) (r : List Char)
    (hd : ∀ x ∈ d, x.isDigit = true) (hn : d ≠ []) (hc : c.isDigit = false)
    (hno : ∀ x ∈ p, x ≠ k0) (hb : bAfter p true = true) :
    findKey (k0 :: ks) true (p ++ ((k0 :: ks) ++ ':' :: (quoteWrap q d ++ c :: r))) =
      some d := by
  rw [findKey_skip k0 ks p true _ hno, hb]
  exact findKey_at k0 ks q d c r hd hn hc

theorem parse_credsInput (af q1 q2 : Bool) (d1 d2 : List Char)
    (hd1 : ∀ c ∈ d1, c.isDigit = true) (hd2 : ∀ c ∈ d2, c.isDigit = true)
    (hn1 : d1 ≠ []) (hn2 : d2 ≠ []) :
    parseRustCredsString (String.mk (credsInput af q1 q2 d1 d2)) =
      .ok { androidId := String.mk d1, securityToken := String.mk d2 } := by
  have ha : d1.all Char.isDigit = true := by
    rw [List.all_eq_true]
    exact fun x hx => hd1 x hx
  have ht : d2.all Char.isDigit = true := by
    rw [List.all_eq_true]
    exact fun x hx => hd2 x hx
  cases af with
  | true =>
    have hform : credsInput true q1 q2 d1 d2 =
        '{' :: (((androidKeyChars ++ ':' :: quoteWrap q1 d1) ++
          ',' :: (securityKeyChars ++ ':' :: quoteWrap q2 d2)) ++ ['}']) := by
      simp [credsInput]
    have htrim : trimChars (credsInput true q1 q2 d1 d2) =
        credsInput true q1 q2 d1 d2 := by
      rw [hform]
      exact trimChars_braced _
    have hlast : (credsInput true q1 q2 d1 d2).getLast? = some '}' := by
      rw [hform, ← List.cons_append]
      exact List.getLast?_concat _
    have hhead : (credsInput true q1 q2 d1 d2).head? = some '{' := by
      rw [hform]
      rfl
    refine parse_eval _ d1 d2 ?_ ?_ ?_ ha ht
    · rw [mk_toList, htrim]
      simp [hlast, hhead]
    · rw [mk_toList, htrim, hform]
      have hre : (((androidKeyChars ++ ':' :: quoteWrap q1 d1) ++
            ',' :: (securityKeyChars ++ ':' :: quoteWrap q2 d2)) ++ ['}']) =
          androidKeyChars ++ ':' :: (quoteWrap q1 d1 ++
            ',' :: ((securityKeyChars ++ ':' :: quoteWrap q2 d2) ++ ['}'])) := by
        simp
      rw [hre]
      exact findKey_front 'a' ['n', 'd', 'r', 'o', 'i', 'd', 'I', 'd'] q1 d1
        ((securityKeyChars ++ ':' :: quoteWrap q2 d2) ++ ['}']) hd1 hn1 (by decide)
    · rw [mk_toList, htrim, hform]
      have hre : ('{' :: (((androidKeyChars ++ ':' :: quoteWrap q1 d1) ++
            ',' :: (securityKeyChars ++ ':' :: quoteWrap q2 d2)) ++ ['}'])) =
          ('{' :: ((androidKeyChars ++ ':' :: quoteWrap q1 d1) ++ [','])) ++
            (securityKeyChars ++ ':' :: (quoteWrap q2 d2 ++ '}' :: [])) := by
        simp
      rw [hre]
      have hpl : ('{' :: ((androidKeyChars ++ ':' :: quoteWrap q1 d1) ++ [','])).getLast?
          = some ',' := by
        rw [← List.cons_append]
        exact List.getLast?_concat _
      have hb : bAfter ('{' :: ((androidKeyChars ++ ':' :: quoteWrap q1 d1) ++ [',']))
          true = true := by
        unfold bAfter
        rw [hpl]
        decide
      exact findKey_after_skip 's' ['e', 'c', 'u', 'r', 'i', 't', 'y', 'T', 'o', 'k', 'e', 'n']
        ('{' :: ((androidKeyChars ++ ':' :: quoteWrap q1 d1) ++ [','])) q2 d2 '}' []
        hd2 hn2 (by decide) (no_s_in_android_field q1 d1 hd1) hb
  | false =>
    have hform : credsInput false q1 q2 d1 d2 =
        '{' :: (((securityKeyChars ++ ':' :: quoteWrap q2 d2) ++
          ',' :: (androidKeyChars ++ ':' :: quoteWrap q1 d1)) ++ ['}']) := by
      simp [credsInput]
    have htrim : trimChars (credsInput false q1 q2 d1 d2) =
        credsInput false q1 q2 d1 d2 := by
      rw [hform]
      exact trimChars_braced _
    have hlast : (credsInput false q1 q2 d1 d2).getLast? = some '}' := by
      rw [hform, ← List.cons_append]
      exact List.getLast?_concat _
    have hhead : (credsInput false q1 q2 d1 d2).head? = some '{' := by
      rw [hform]
      rfl
    refine parse_eval _ d1 d2 ?_ ?_ ?_ ha ht
    · rw [mk_toList, htrim]
      simp [hlast, hhead]
    · rw [mk_toList, htrim, hform]
      have hre : ('{' :: (((securityKeyChars ++ ':' :: quoteWrap q2 d2) ++
            ',' :: (androidKeyChars ++ ':' :: quoteWrap q1 d1)) ++ ['}'])) =
          ('{' :: ((securityKeyChars ++ ':' :: quoteWrap q2 d2) ++ [','])) ++
            (androidKeyChars ++ ':' :: (quoteWrap q1 d1 ++ '}' :: [])) := by
        simp
      rw [hre]
      have hpl : ('{' :: ((securityKeyChars ++ ':' :: quoteWrap q2 d2) ++ [','])).getLast?
          = some ',' := by
        rw [← List.cons_append]
        exact List.getLast?_concat _
      have hb : bAfter ('{' :: ((securityKeyChars ++ ':' :: quoteWrap q2 d2) ++ [',']))
          true = true := by
        unfold bAfter
        rw [hpl]
        decide
      exact findKey_after_skip 'a' ['n', 'd', 'r', 'o', 'i', 'd', 'I', 'd']
        ('{' :: ((securityKeyChars ++ ':' :: quoteWrap q2 d2) ++ [','])) q1 d1 '}' []
        hd1 hn1 (by decide) (no_a_in_security_field q2 d2 hd2) hb
    · rw [mk_toList, htrim, hform]
      have hre : (((securityKeyChars ++ ':' :: quoteWrap q2 d2) ++
            ',' :: (androidKeyChars ++ ':' :: quoteWrap q1 d1)) ++ ['}']) =
          securityKeyChars ++ ':' :: (quoteWrap q2 d2 ++
            ',' :: ((androidKeyChars ++ ':' :: quoteWrap q1 d1) ++ ['}'])) := by
        simp
      rw [hre]
      exact findKey_front 's' ['e', 'c', 'u', 'r', 'i', 't', 'y', 'T', 'o', 'k', 'e', 'n']
        q2 d2 ((androidKeyChars ++ ':' :: quoteWrap q1 d1) ++ ['}']) hd2 hn2 (by decide)

/-- C5 counterexample: the input `{androidId:12a,securityToken:34}` carries
an `androidId` value `12a` that is not a digit string, yet the parser does
not fail — it succeeds with the truncated leading digit run `12`. -/
theorem c5_counterexample :
    (parseRustCredsString "\x7bandroidId:12a,securityToken:34\x7d").toOption =
      some { androidId := "12", securityToken := "34" }
    ∧ (∀ e, parseRustCredsString "\x7bandroidId:12a,securityToken:34\x7d" ≠ .error e)
    ∧ "12a".toList.all Char.isDigit = false := by
  have h0 : (parseRustCredsString "\x7bandroidId:12a,securityToken:34\x7d").toOption =
      some { androidId := "12", securityToken := "34" } := by decide
  refine ⟨h0, ?_, by decide⟩
  intro e he
  rw [he] at h0
  simp [Except.toOption] at h0

/-- C5 (amended): for every input `{androidId:D1,securityToken:D2}` with
digit strings in either key order and optional quotes the parser returns
exactly `D1` and `D2`; it fails when the trimmed input is not
`{`…`}`-delimited (in particular on the empty string) and when either
key-anchored digit pattern cannot be found; but a value that merely starts
with digits and continues with other characters does not fail — the parser
returns its leading digit run. -/
theorem c5_credential_codec_amended (af q1 q2 : Bool) (d1 d2 : List Char)
    (hd1 : ∀ c ∈ d1, c.isDigit = true) (hd2 : ∀ c ∈ d2, c.isDigit = true)
    (hn1 : d1 ≠ []) (hn2 : d2 ≠ []) :
    parseRustCredsString (String.mk (credsInput af q1 q2 d1 d2)) =
      .ok { androidId := String.mk d1, securityToken := String.mk d2 }
    ∧ isErr (parseRustCredsString "") = true
    ∧ (∀ s : String, (((trimChars s.toList).head? == some '{') &&
        ((trimChars s.toList).getLast? == some '}')) = false →
        isErr (parseRustCredsString s) = true)
    ∧ (∀ s : String, findKey androidKeyChars true (trimChars s.toList) = none →
        isErr (parseRustCredsString s) = true)
    ∧ (∀ s : String, findKey securityKeyChars true (trimChars s.toList) = none →
        isErr (parseRustCredsString s) = true) := by
  refine ⟨parse_credsInput af q1 q2 d1 d2 hd1 hd2 hn1 hn2, by decide, ?_, ?_, ?_⟩
  · intro s h
    have hdata : (((trimChars s.data).head? == some '{') &&
        ((trimChars s.data).getLast? == some '}')) = false := h
    have h' : ¬((trimChars s.data).head? = some '{' ∧
        (trimChars s.data).getLast? = some '}') := by
      intro hcontra
      rw [hcontra.1, hcontra.2] at hdata
      simp at hdata
    simp [parseRustCredsString, isErr, h']
  · intro s h
    have h2 : findKey androidKeyChars true (trimChars s.data) = none := h
    by_cases hc : (trimChars s.data).head? = some '{' ∧
        (trimChars s.data).getLast? = some '}'
    · simp [parseRustCredsString, isErr, hc, h2]
    · simp [parseRustCredsString, isErr, hc]
  · intro s h
    have h2 : findKey securityKeyChars true (trimChars s.data) = none := h
    by_cases hc : (trimChars s.data).head? = some '{' ∧
        (trimChars s.data).getLast? = some '}'
    · rcases hfa : findKey androidKeyChars true (trimChars s.data) with _ | a
      · simp [parseRustCredsString, isErr, hc, hfa]
      · simp [parseRustCredsString, isErr, hc, hfa, h2]
    · simp [parseRustCredsString, isErr, hc]

theorem c5_credential_codec_amended_witness :
    parseRustCredsString (String.mk (credsInput true true false ['1'] ['2'])) =
      .ok { androidId := String.mk ['1'], securityToken := String.mk ['2'] }
    ∧ isErr (parseRustCredsString "") = true := by
  have h := c5_credential_codec_amended true true false ['1'] ['2']
    (by
      intro c hc
      rw [List.mem_singleton] at hc
      subst hc
      decide)
    (by
      intro c hc
      rw [List.mem_singleton] at hc
      subst hc
      decide)
    (by decide) (by decide)
  exact ⟨h.1, h.2.1⟩

theorem charToSix_sixToChar : ∀ n : Fin 64, charToSix (sixToChar n.val) = n.val := by
  decide

theorem sixToChar_ne_pad : ∀ n : Fin 64, sixToChar n.val ≠ '=' := by
  decide

theorem charToSix_sixToChar_lt (s : Nat) (hs : s < 64) :
    charToSix (sixToChar s) = s := charToSix_sixToChar ⟨s, hs⟩

theorem stripEq_cons_ne (c : Char) (cs : List Char) (h : c ≠ '=') :
    stripEq (c :: cs) = c :: stripEq cs := by
  simp [stripEq, h]

theorem b64_roundtrip :
    ∀ n (bs : List Nat), bs.length ≤ n → (∀ b ∈ bs, b < 256) →
      b64decode (stripEq (b64encodeBytes bs)) = bs := by
  intro n
  induction n with
  | zero =>
    intro bs h _
    have hnil : bs = [] := List.length_eq_zero.mp (by omega)
    subst hnil
    rfl
  | succ n ih =>
    intro bs h hb
    match bs with
    | [] => rfl
    | [a] =>
      have ha : a < 256 := hb a (by simp)
      have h1 : a / 4 < 64 := by omega
      have h2 : (a % 4) * 16 < 64 := by omega
      have hne1 : sixToChar (a / 4) ≠ '=' := sixToChar_ne_pad ⟨a / 4, h1⟩
      have hne2 : sixToChar ((a % 4) * 16) ≠ '=' := sixToChar_ne_pad ⟨(a % 4) * 16, h2⟩
      have hs : stripEq (b64encodeBytes [a]) =
          [sixToChar (a / 4), sixToChar ((a % 4) * 16)] := by
        simp [b64encodeBytes, stripEq, hne1, hne2]
      rw [hs]
      simp only [b64decode, charToSix_sixToChar_lt _ h1, charToSix_sixToChar_lt _ h2]
      have : a / 4 * 4 + (a % 4) * 16 / 16 = a := by omega
      rw [this]
    | [a, b] =>
      have ha : a < 256 := hb a (by simp)
      have hbb : b < 256 := hb b (by simp)
      have h1 : a / 4 < 64 := by omega
      have h2 : (a % 4) * 16 + b / 16 < 64 := by omega
      have h3 : (b % 16) * 4 < 64 := by omega
      have hne1 : sixToChar (a / 4) ≠ '=' := sixToChar_ne_pad ⟨a / 4, h1⟩
      have hne2 : sixToChar ((a % 4) * 16 + b / 16) ≠ '=' :=
        sixToChar_ne_pad ⟨(a % 4) * 16 + b / 16, h2⟩
      have hne3 : sixToChar ((b % 16) * 4) ≠ '=' := sixToChar_ne_pad ⟨(b % 16) * 4, h3⟩
      have hs : stripEq (b64encodeBytes [a, b]) =
          [sixToChar (a / 4), sixToChar ((a % 4) * 16 + b / 16),
            sixToChar ((b % 16) * 4)] := by
        simp [b64encodeBytes, stripEq, hne1, hne2, hne3]
      rw [hs]
      simp only [b64decode, charToSix_sixToChar_lt _ h1, charToSix_sixToChar_lt _ h2,
        charToSix_sixToChar_lt _ h3]
      have e1 : a / 4 * 4 + ((a % 4) * 16 + b / 16) / 16 = a := by omega
      have e2 : ((a % 4) * 16 + b / 16) % 16 * 16 + (b % 16) * 4 / 4 = b := by omega
      rw [e1, e2]
    | a :: b :: c :: rest =>
      have ha : a < 256 := hb a (by simp)
      have hbb : b < 256 := hb b (by simp)
      have hcc : c < 256 := hb c (by simp)
      have h1 : a / 4 < 64 := by omega
      have h2 : (a % 4) * 16 + b / 16 < 64 := by omega
      have h3 : (b % 16) * 4 + c / 64 < 64 := by omega
      have h4 : c % 64 < 64 := by omega
      have hne1 : sixToChar (a / 4) ≠ '=' := sixToChar_ne_pad ⟨a / 4, h1⟩
      have hne2 : sixToChar ((a % 4) * 16 + b / 16) ≠ '=' :=
        sixToChar_ne_pad ⟨(a % 4) * 16 + b / 16, h2⟩
      have hne3 : sixToChar ((b % 16) * 4 + c / 64) ≠ '=' :=
        sixToChar_ne_pad ⟨(b % 16) * 4 + c / 64, h3⟩
      have hne4 : sixToChar (c % 64) ≠ '=' := sixToChar_ne_pad ⟨c % 64, h4⟩
      have hs : stripEq (b64encodeBytes (a :: b :: c :: rest)) =
          sixToChar (a / 4) :: sixToChar ((a % 4) * 16 + b / 16) ::
            sixToChar ((b % 16) * 4 + c / 64) :: sixToChar (c % 64) ::
            stripEq (b64encodeBytes rest) := by
        simp only [b64encodeBytes]
        rw [stripEq_cons_ne _ _ hne1, stripEq_cons_ne _ _ hne2,
          stripEq_cons_ne _ _ hne3, stripEq_cons_ne _ _ hne4]
      rw [hs]
      simp only [b64decode, charToSix_sixToChar_lt _ h1, charToSix_sixToChar_lt _ h2,
        charToSix_sixToChar_lt _ h3, charToSix_sixToChar_lt _ h4]
      have e1 : a / 4 * 4 + ((a % 4) * 16 + b / 16) / 16 = a := by omega
      have e2 : ((a % 4) * 16 + b / 16) % 16 * 16 + ((b % 16) * 4 + c / 64) / 4 = b := by
        omega
      have e3 : ((b % 16) * 4 + c / 64) % 4 * 64 + c % 64 = c := by omega
      rw [e1, e2, e3, ih rest (by simp [List.length_cons] at h; omega)
        (fun x hx => hb x (by simp [hx]))]

set_option maxRecDepth 4096 in
theorem fid_byte_facts :
    ∀ x : Fin 256, (112 ||| (x.val &&& 15)) < 256
      ∧ (112 ||| (x.val &&& 15)) / 16 = 7
      ∧ (112 ||| (x.val &&& 15)) % 16 = x.val % 16 := by
  decide

theorem pad_not_mem_stripEq (cs : List Char) : '=' ∉ stripEq cs := by
  intro h
  rw [stripEq, List.mem_filter] at h
  simp at h

/-- C8: for every draw of 17 random bytes, the generated installation
identifier base64-decodes to exactly the 17 fixed bytes — in particular the
first decoded byte has high nibble `0b0111` (`/ 16 = 7`) and the low nibble
of the drawn byte — and the encoded string contains no `=` padding. -/
theorem c8_fid_shape (bytes : List Nat) (hlen : bytes.length = 17)
    (hb : ∀ b ∈ bytes, b < 256) :
    b64decode (generateFirebaseFID bytes).toList = fixFid bytes
    ∧ (b64decode (generateFirebaseFID bytes).toList).length = 17
    ∧ (∀ h t, fixFid bytes = h :: t → h / 16 = 7 ∧ h % 16 = bytes.headD 0 % 16)
    ∧ '=' ∉ (generateFirebaseFID bytes).toList := by
  have hfixb : ∀ b ∈ fixFid bytes, b < 256 := by
    intro b hbm
    cases bytes with
    | nil => simp [fixFid] at hbm
    | cons b0 rest =>
      rcases List.mem_cons.mp hbm with rfl | hbm
      · exact (fid_byte_facts ⟨b0, hb b0 (by simp)⟩).1
      · exact hb b (by simp [hbm])
  have hfixlen : (fixFid bytes).length = 17 := by
    cases bytes with
    | nil => simp at hlen
    | cons b0 rest => simpa [fixFid] using hlen
  have hrt : b64decode (generateFirebaseFID bytes).toList = fixFid bytes := by
    rw [generateFirebaseFID, mk_toList]
    exact b64_roundtrip 17 (fixFid bytes) (by omega) hfixb
  refine ⟨hrt, by rw [hrt, hfixlen], ?_, ?_⟩
  · intro h t hf
    cases bytes with
    | nil => simp [fixFid] at hf
    | cons b0 rest =>
      simp only [fixFid] at hf
      injection hf with h1 h2
      subst h1
      have hfact := fid_byte_facts ⟨b0, hb b0 (by simp)⟩
      exact ⟨hfact.2.1, by simpa using hfact.2.2⟩
  · rw [generateFirebaseFID, mk_toList]
    exact pad_not_mem_stripEq _

theorem c8_fid_shape_witness :
    b64decode (generateFirebaseFID (List.replicate 17 0)).toList =
      fixFid (List.replicate 17 0)
    ∧ (b64decode (generateFirebaseFID (List.replicate 17 0)).toList).length = 17
    ∧ '=' ∉ (generateFirebaseFID (List.replicate 17 0)).toList := by
  have h := c8_fid_shape (List.replicate 17 0) (by decide)
    (by
      intro b hbm
      rw [List.eq_of_mem_replicate hbm]
      omega)
  exact ⟨h.1, h.2.1, h.2.2.2⟩

theorem hasPrefixB_refl (l : List Char) : hasPrefixB l l = true := by
  induction l with
  | nil => rfl
  | cons c cs ih => simp [hasPrefixB, ih]

theorem containsSub_append_self (p x : List Char) : containsSub p (x ++ p) = true := by
  induction x with
  | nil =>
    simp only [List.nil_append]
    cases p with
    | nil => rfl
    | cons c cs => simp [containsSub, hasPrefixB_refl]
  | cons c cs ih => simp [containsSub, ih]

/-- C9 counterexample: the response with body `{}` (valid JSON, no
`authToken`) makes `installRequest` throw, but the thrown message contains
`[object Object]` — it does not include the raw response body `{}`. -/
theorem c9_counterexample :
    installRequest { rawBody := "\x7b\x7d", data := .jsonObj none } =
      .error "Failed to get Firebase installation AuthToken: [object Object]"
    ∧ containsSub "\x7b\x7d".toList
        "Failed to get Firebase installation AuthToken: [object Object]".toList
      = false := by
  exact ⟨rfl, by decide⟩

/-- C9 (amended): whenever the response lacks a populated auth-token field,
`installRequest` fails with an error whose message embeds the JavaScript
string conversion of the parsed response data; that conversion equals the
raw response body exactly when the body was not parsed as JSON (for parsed
JSON objects it is the constant `[object Object]`). -/
theorem c9_install_error_amended (r : InstallResponse)
    (h : ∀ t, r.data = AxiosData.jsonObj (some (some t)) → t = "") :
    installRequest r = .error (installErrMsg r)
    ∧ installErrMsg r =
        "Failed to get Firebase installation AuthToken: " ++ dataToString r
    ∧ (r.data = .raw →
        containsSub r.rawBody.toList (installErrMsg r).toList = true) := by
  refine ⟨?_, rfl, ?_⟩
  · rcases r with ⟨raw, data⟩
    rcases data with _ | tok
    · rfl
    · rcases tok with _ | t
      · rfl
      · rcases t with _ | t
        · rfl
        · have ht : t = "" := h t rfl
          subst ht
          simp [installRequest]
  · intro hraw
    rcases r with ⟨raw, data⟩
    simp only at hraw
    subst hraw
    have : (installErrMsg { rawBody := raw, data := AxiosData.raw }).toList =
        "Failed to get Firebase installation AuthToken: ".toList ++ raw.toList := by
      simp [installErrMsg, dataToString, String.toList, String.data_append]
    rw [this]
    exact containsSub_append_self _ _

theorem c9_install_error_amended_witness :
    installRequest { rawBody := "oops", data := AxiosData.raw } =
      .error (installErrMsg { rawBody := "oops", data := AxiosData.raw })
    ∧ containsSub "oops".toList
        (installErrMsg { rawBody := "oops", data := AxiosData.raw }).toList = true := by
  have h := c9_install_error_amended { rawBody := "oops", data := .raw }
    (by
      intro t ht
      simp at ht)
  exact ⟨h.1, h.2.2 rfl⟩

theorem fcmRegister_success (ir : InstallResponse) (tok aid sec expo auth : String)
    (fcmTok : Option String) (resps : Nat → String) (reqs : List HReq)
    (cfg : List (String × JVal))
    (hinst : installRequest ir = .ok tok)
    (hreg : (registerRequest resps aid sec tok).result = .ok fcmTok)
    (hpair : (run initState reqs).1.resolved = some auth) :
    fcmRegister
      { installResp := ir, checkInResp := some (aid, sec),
        registerResps := resps, expoResp := some expo, pairingReqs := reqs,
        finalizeOk := true } cfg =
      .ok (updateConfig cfg
        [("fcm_credentials", credsJson
            { androidId := aid, securityToken := sec, fcmToken := fcmTok }),
         ("expo_push_token", .str expo),
         ("rustplus_auth_token", .str auth)]) := by
  simp only [fcmRegister, androidRegister, hinst, hreg, hpair, if_true]

/-- C6: in the run where check-in yields `(100, 200)`, installation yields
`T1`, the first register response is `=PUSH1`, the bridge yields `EXPO1`,
pairing resolves `AUTH1` and finalization succeeds, the persisted bundle
(over an empty prior config) is exactly
`{fcm_credentials: {gcm: {androidId: "100", securityToken: "200"},
fcm: {token: "PUSH1"}}, expo_push_token: "EXPO1",
rustplus_auth_token: "AUTH1"}`, written with 2-space indentation. -/
theorem c6_end_to_end :
    fcmRegister
      { installResp := { rawBody := "ok", data := .jsonObj (some (some "T1")) },
        checkInResp := some ("100", "200"),
        registerResps := fun _ => "=PUSH1",
        expoResp := some "EXPO1",
        pairingReqs := [HReq.submitToken (some "AUTH1")],
        finalizeOk := true } [] =
      .ok ([("fcm_credentials",
              JVal.obj [("gcm", JVal.obj [("androidId", JVal.str "100"),
                                          ("securityToken", JVal.str "200")]),
                        ("fcm", JVal.obj [("token", JVal.str "PUSH1")])]),
            ("expo_push_token", JVal.str "EXPO1"),
            ("rustplus_auth_token", JVal.str "AUTH1")],
        "\x7b\n  \"fcm_credentials\": \x7b\n    \"gcm\": \x7b\n      \"androidId\": \"100\",\n      \"securityToken\": \"200\"\n    \x7d,\n    \"fcm\": \x7b\n      \"token\": \"PUSH1\"\n    \x7d\n  \x7d,\n  \"expo_push_token\": \"EXPO1\",\n  \"rustplus_auth_token\": \"AUTH1\"\n\x7d") := by
  have ht : tokenFromBody "=PUSH1" = some "PUSH1" := by decide
  have hreg : (registerRequest (fun _ => "=PUSH1") "100" "200" "T1").result =
      Except.ok (some "PUSH1") := by
    rw [registerRequest, go_ok _ _ _ _ _ (by decide)]
    simp [ht]
  rw [fcmRegister_success { rawBody := "ok", data := .jsonObj (some (some "T1")) }
    "T1" "100" "200" "EXPO1" "AUTH1" (some "PUSH1") (fun _ => "=PUSH1")
    [HReq.submitToken (some "AUTH1")] [] rfl hreg rfl]
  rfl

theorem getVal_append (k : String) (a b : List (String × JVal)) :
    getVal k (a ++ b) = match getVal k a with
      | some v => some v
      | none => getVal k b := by
  induction a with
  | nil => simp [getVal]
  | cons kv t ih =>
    rcases kv with ⟨k2, v2⟩
    by_cases hk : k2 = k
    · simp [getVal, hk]
    · simp [getVal, hk, ih]

theorem getVal_setVal_self (k : String) (v : JVal) (l : List (String × JVal))
    (h : (getVal k l).isSome = true) :
    getVal k (setVal k v l) = some v := by
  induction l with
  | nil => simp [getVal] at h
  | cons kv t ih =>
    rcases kv with ⟨k2, v2⟩
    by_cases hk : k2 = k
    · subst hk
      simp [setVal, getVal]
    · have h2 : (getVal k t).isSome = true := by simpa [getVal, hk] using h
      simp [setVal, getVal, hk, ih h2]

theorem getVal_setVal_other (k k2 : String) (v : JVal) (l : List (String × JVal))
    (h : k2 ≠ k) :
    getVal k (setVal k2 v l) = getVal k l := by
  induction l with
  | nil => rfl
  | cons kv t ih =>
    rcases kv with ⟨k3, v3⟩
    by_cases hk3 : k3 = k2
    · subst hk3
      simp [setVal, getVal, h, ih]
    · by_cases hk : k3 = k
      · subst hk
        simp [setVal, getVal, hk3, ih]
      · simp [setVal, getVal, hk3, hk, ih]

theorem getVal_setKey_self (k : String) (v : JVal) (l : List (String × JVal)) :
    getVal k (setKey l k v) = some v := by
  unfold setKey
  by_cases h : (getVal k l).isSome = true
  · rw [if_pos h]
    exact getVal_setVal_self k v l h
  · rw [if_neg h]
    have hn : getVal k l = none := by
      rcases hg : getVal k l with _ | w
      · rfl
      · rw [hg] at h
        simp at h
    rw [getVal_append, hn]
    simp [getVal]

theorem getVal_setKey_other (k k2 : String) (v : JVal) (l : List (String × JVal))
    (h : k2 ≠ k) : getVal k (setKey l k2 v) = getVal k l := by
  unfold setKey
  by_cases hs : (getVal k2 l).isSome = true
  · rw [if_pos hs]
    exact getVal_setVal_other k k2 v l h
  · rw [if_neg hs]
    rw [getVal_append]
    rcases hg : getVal k l with _ | w
    · simp [getVal, h]
    · rfl

theorem getVal_eq_none_of_not_mem (k : String) (l : List (String × JVal))
    (h : k ∉ l.map Prod.fst) : getVal k l = none := by
  induction l with
  | nil => rfl
  | cons kv t ih =>
    rcases kv with ⟨k2, v2⟩
    simp only [List.map_cons, List.mem_cons] at h
    push_neg at h
    have hk2 : k2 ≠ k := fun he => h.1 he.symm
    simp [getVal, hk2, ih h.2]

theorem mergeObj_none (b : List (String × JVal)) :
    ∀ (a : List (String × JVal)) (k : String), getVal k b = none →
      getVal k (mergeObj a b) = getVal k a := by
  induction b with
  | nil => intro a k _; rfl
  | cons kv b2 ih =>
    rcases kv with ⟨k0, v0⟩
    intro a k h
    by_cases hk0 : k0 = k
    · subst hk0
      simp [getVal] at h
    · have h2 : getVal k b2 = none := by simpa [getVal, hk0] using h
      have : mergeObj a ((k0, v0) :: b2) = mergeObj (setKey a k0 v0) b2 := rfl
      rw [this, ih (setKey a k0 v0) k h2, getVal_setKey_other k k0 v0 a hk0]

theorem mergeObj_some (b : List (String × JVal)) :
    ∀ (a : List (String × JVal)) (k : String), (b.map Prod.fst).Nodup →
      (getVal k b).isSome = true →
      getVal k (mergeObj a b) = getVal k b := by
  induction b with
  | nil =>
    intro a k _ h
    simp [getVal] at h
  | cons kv b2 ih =>
    rcases kv with ⟨k0, v0⟩
    intro a k hnd h
    have hstep : mergeObj a ((k0, v0) :: b2) = mergeObj (setKey a k0 v0) b2 := rfl
    have hnd' : (k0 :: b2.map Prod.fst).Nodup := by simpa using hnd
    by_cases hk0 : k0 = k
    · subst hk0
      have hnotin : k0 ∉ b2.map Prod.fst := (List.nodup_cons.mp hnd').1
      have hb2 : getVal k0 b2 = none := getVal_eq_none_of_not_mem k0 b2 hnotin
      rw [hstep, mergeObj_none b2 (setKey a k0 v0) k0 hb2,
        getVal_setKey_self k0 v0 a]
      simp [getVal]
    · have h2 : (getVal k b2).isSome = true := by simpa [getVal, hk0] using h
      have hnd2 : (b2.map Prod.fst).Nodup := (List.nodup_cons.mp hnd').2
      rw [hstep, ih (setKey a k0 v0) k hnd2 h2]
      simp [getVal, hk0]

theorem mergeObj_disjoint (b : List (String × JVal)) :
    ∀ (a : List (String × JVal)),
      (∀ k ∈ b.map Prod.fst, getVal k a = none) → (b.map Prod.fst).Nodup →
      mergeObj a b = a ++ b := by
  induction b with
  | nil => intro a _ _; simp [mergeObj]
  | cons kv b2 ih =>
    rcases kv with ⟨k0, v0⟩
    intro a hdisj hnd
    have hstep : mergeObj a ((k0, v0) :: b2) = mergeObj (setKey a k0 v0) b2 := rfl
    have h0 : getVal k0 a = none := hdisj k0 (by simp)
    have hset : setKey a k0 v0 = a ++ [(k0, v0)] := by
      unfold setKey
      rw [if_neg (by simp [h0])]
    have hnd' : (k0 :: b2.map Prod.fst).Nodup := by simpa using hnd
    have hnotin : k0 ∉ b2.map Prod.fst := (List.nodup_cons.mp hnd').1
    have hnd2 : (b2.map Prod.fst).Nodup := (List.nodup_cons.mp hnd').2
    have hdisj2 : ∀ k ∈ b2.map Prod.fst, getVal k (a ++ [(k0, v0)]) = none := by
      intro k hk
      have hka : getVal k a = none := hdisj k (by simp [hk])
      have hkk0 : k0 ≠ k := fun he => hnotin (he ▸ hk)
      rw [getVal_append, hka]
      simp [getVal, hkk0]
    rw [hstep, hset, ih (a ++ [(k0, v0)]) hdisj2 hnd2]
    simp

/-- C7: persisting merges the bundle into the existing configuration —
every key of the bundle reads back with the bundle's value, every key the
bundle does not name keeps its old value — and the written file text is
`JSON.stringify` of the merged object with 2-space indentation. -/
theorem c7_merge_frame (currentConfig config : List (String × JVal)) (k : String)
    (hnodup : (config.map Prod.fst).Nodup) :
    ((getVal k config).isSome = true →
      getVal k (mergeObj currentConfig config) = getVal k config)
    ∧ (getVal k config = none →
      getVal k (mergeObj currentConfig config) = getVal k currentConfig)
    ∧ updateConfig currentConfig config =
        (mergeObj currentConfig config,
          printJVal 0 (JVal.obj (mergeObj currentConfig config))) := by
  refine ⟨?_, ?_, rfl⟩
  · intro h
    exact mergeObj_some config currentConfig k hnodup h
  · intro h
    exact mergeObj_none config currentConfig k h

theorem c7_merge_frame_witness :
    getVal "expo_push_token"
      (mergeObj [("old_key", JVal.str "keep"), ("expo_push_token", JVal.str "stale")]
        [("expo_push_token", JVal.str "new")]) =
      getVal "expo_push_token" [("expo_push_token", JVal.str "new")]
    ∧ getVal "old_key"
      (mergeObj [("old_key", JVal.str "keep"), ("expo_push_token", JVal.str "stale")]
        [("expo_push_token", JVal.str "new")]) =
      getVal "old_key" [("old_key", JVal.str "keep"), ("expo_push_token", JVal.str "stale")]
    ∧ updateConfig [("old_key", JVal.str "keep"), ("expo_push_token", JVal.str "stale")]
        [("expo_push_token", JVal.str "new")] =
      (mergeObj [("old_key", JVal.str "keep"), ("expo_push_token", JVal.str "stale")]
          [("expo_push_token", JVal.str "new")],
        printJVal 0 (JVal.obj
          (mergeObj [("old_key", JVal.str "keep"), ("expo_push_token", JVal.str "stale")]
            [("expo_push_token", JVal.str "new")]))) := by
  have h1 := c7_merge_frame
    [("old_key", JVal.str "keep"), ("expo_push_token", JVal.str "stale")]
    [("expo_push_token", JVal.str "new")] "expo_push_token" (by decide)
  have h2 := c7_merge_frame
    [("old_key", JVal.str "keep"), ("expo_push_token", JVal.str "stale")]
    [("expo_push_token", JVal.str "new")] "old_key" (by decide)
  exact ⟨h1.1 rfl, h2.2.1 rfl, h1.2.2⟩

/-- C10: when the persisted file is absent or its contents do not parse as
JSON, `readConfig` yields the empty object, so the written file holds only
the new bundle — keys of an unparseable pre-existing file do not survive. -/
theorem c10_unparseable_config (fs : FileState) (bundle : List (String × JVal))
    (hfs : fs = FileState.absent ∨ fs = FileState.invalid)
    (hnodup : (bundle.map Prod.fst).Nodup) :
    readConfig fs = []
    ∧ updateConfigFile fs bundle = (bundle, printJVal 0 (JVal.obj bundle)) := by
  have hread : readConfig fs = [] := by rcases hfs with rfl | rfl <;> rfl
  refine ⟨hread, ?_⟩
  rw [updateConfigFile, hread]
  have hm : mergeObj [] bundle = bundle := by
    have h := mergeObj_disjoint bundle [] (fun k _ => rfl) hnodup
    simpa using h
  simp [updateConfig, hm]

theorem c10_unparseable_config_witness :
    readConfig FileState.invalid = []
    ∧ updateConfigFile FileState.invalid [("rustplus_auth_token", JVal.str "A")] =
      ([("rustplus_auth_token", JVal.str "A")],
        printJVal 0 (JVal.obj [("rustplus_auth_token", JVal.str "A")])) := by
  exact c10_unparseable_config FileState.invalid
    [("rustplus_auth_token", JVal.str "A")] (Or.inr rfl) (by decide)
